import Mathlib

/-!
# Verification of the semantic skills-matching core

Shallow embedding of the semantic matching engine of the `ia-gs2-2025`
repository (`src/api/app/models/skills_matcher.py`,
`src/api/app/services/extraction_service.py`,
`src/api/app/services/occupation_inference_service.py`).

Modelling conventions:
* Python `str` is modelled by Lean `String` (a list of characters);
  `str.strip()` is `pyStrip` (drops ASCII whitespace at both ends) and
  `str.lower()` is `pyLower` (character-wise `Char.toLower`, which performs
  the basic-latin case mapping).
* similarity scores and thresholds are modelled by `ℚ`; the sentence
  transformer `model.encode` and `util.pytorch_cos_sim` are black-box
  oracles carried as function-valued fields of the `SkillsMatcher` state
  (cosine over real vectors is irrational, and no claim depends on the
  actual formula).
* Python's stable `list.sort(key=..., reverse=True)` is modelled by a
  stable insertion sort `sortKeyDesc`.
* functions that the Python code can leave via an uncaught exception are
  given a result type with an explicit `raised` alternative; the bodies
  below never produce it, mirroring the code, and the alternative exists
  so that the specification's error taxonomy can be stated and compared.
-/

namespace IaGs2

/-- One step of Python's `str.strip`: drop leading ASCII whitespace. -/
def stripLeft (l : List Char) : List Char := l.dropWhile Char.isWhitespace

/-- Embedding of Python `s.strip()`: drop whitespace at both ends. -/
def pyStrip (s : String) : String :=
  ⟨((stripLeft s.data).reverse |> stripLeft).reverse⟩

/-- Embedding of Python `s.lower()` (basic-latin case mapping). -/
def pyLower (s : String) : String := ⟨s.data.map Char.toLower⟩

/-- Embedding of Python's substring test `needle in hay`. -/
def pyIn (needle hay : String) : Bool :=
  hay.data.tails.any (fun t => needle.data.isPrefixOf t)

/-- Embedding of Python `int(q)` on a rational: truncation toward zero. -/
def pyInt (q : ℚ) : ℤ := if q < 0 then -⌊-q⌋ else ⌊q⌋

/-- Round a rational to the nearest integer, ties to the even integer
 (the rounding mode of Python's builtin `round`). -/
def roundHalfEven (q : ℚ) : ℤ :=
  let f := ⌊q⌋
  let r := q - (f : ℚ)
  if r < 1/2 then f
  else if 1/2 < r then f + 1
  else if f % 2 = 0 then f else f + 1

/-- Embedding of Python `round(q, 4)`. -/
def pyRound4 (q : ℚ) : ℚ := (roundHalfEven (q * 10000) : ℚ) / 10000

/-! ## Character-level facts about the normalization primitives -/

theorem char_toNat_ofNat_valid {n : Nat} (h : Nat.isValidChar n) :
    (Char.ofNat n).toNat = n := by
  unfold Char.ofNat
  rw [dif_pos h]
  rfl

theorem char_toNat_le (c : Char) : c.toNat < 1114112 := by
  rcases c.valid with h | ⟨_, h⟩
  · exact Nat.lt_trans h (by norm_num)
  · exact h

theorem char_toNat_inj {c d : Char} (h : c.toNat = d.toNat) : c = d :=
  Char.eq_of_val_eq (UInt32.ext h)

theorem toLower_toNat (c : Char) :
    c.toLower.toNat = if 65 ≤ c.toNat ∧ c.toNat ≤ 90 then c.toNat + 32 else c.toNat := by
  unfold Char.toLower
  split
  · next h =>
    rw [if_pos ⟨h.1, h.2⟩]
    exact char_toNat_ofNat_valid (Or.inl (by omega))
  · next h =>
    rw [if_neg (by omega)]

theorem toLower_idem (c : Char) : c.toLower.toLower = c.toLower := by
  apply char_toNat_inj
  rw [toLower_toNat, toLower_toNat]
  by_cases h : 65 ≤ c.toNat ∧ c.toNat ≤ 90
  · rw [if_pos h, if_neg (by omega)]
  · rw [if_neg h, if_neg h]

theorem isWhitespace_iff_toNat (c : Char) :
    c.isWhitespace = true ↔ (c.toNat = 32 ∨ c.toNat = 9 ∨ c.toNat = 13 ∨ c.toNat = 10) := by
  unfold Char.isWhitespace
  simp only [Bool.or_eq_true, decide_eq_true_eq]
  constructor
  · rintro (((h | h) | h) | h) <;> rw [h] <;> simp
  · rintro (h | h | h | h) <;>
      [ exact Or.inl (Or.inl (Or.inl (char_toNat_inj h)));
        exact Or.inl (Or.inl (Or.inr (char_toNat_inj h)));
        exact Or.inl (Or.inr (char_toNat_inj h));
        exact Or.inr (char_toNat_inj h) ]

theorem isWhitespace_toLower (c : Char) : c.toLower.isWhitespace = c.isWhitespace := by
  by_cases h : 65 ≤ c.toNat ∧ c.toNat ≤ 90
  · have h1 : c.toLower.isWhitespace = false := by
      rw [Bool.eq_false_iff]
      intro hw
      have := (isWhitespace_iff_toNat _).1 hw
      rw [toLower_toNat, if_pos h] at this
      omega
    have h2 : c.isWhitespace = false := by
      rw [Bool.eq_false_iff]
      intro hw
      have := (isWhitespace_iff_toNat _).1 hw
      omega
    rw [h1, h2]
  · have : c.toLower = c := by
      apply char_toNat_inj
      rw [toLower_toNat, if_neg h]
    rw [this]

/-! ## String-level facts about the normalization primitives -/

theorem dropWhile_head_fail {p : Char → Bool} {l : List Char} {c : Char} {t : List Char}
    (h : l.dropWhile p = c :: t) : p c = false := by
  have := List.head?_dropWhile_not p l
  rw [h] at this
  exact this

theorem dropWhile_of_head_fail {p : Char → Bool} {l : List Char}
    (h : ∀ c t, l = c :: t → p c = false) : l.dropWhile p = l := by
  cases l with
  | nil => rfl
  | cons c t => exact List.dropWhile_cons_of_neg (by simp [h c t rfl])

theorem stripLeft_idem (l : List Char) : stripLeft (stripLeft l) = stripLeft l := by
  apply dropWhile_of_head_fail
  intro c t h
  exact dropWhile_head_fail h

/-- The right-strip (drop trailing whitespace), the second phase of `pyStrip`. -/
def stripRight (l : List Char) : List Char := (stripLeft l.reverse).reverse

theorem pyStrip_data (s : String) : (pyStrip s).data = stripRight (stripLeft s.data) := rfl

theorem stripRight_idem (l : List Char) : stripRight (stripRight l) = stripRight l := by
  unfold stripRight
  rw [List.reverse_reverse, stripLeft_idem]

theorem stripRight_head_fail {l : List Char} {c : Char} {t : List Char}
    (hl : ∀ c' t', l = c' :: t' → Char.isWhitespace c' = false)
    (h : stripRight l = c :: t) : Char.isWhitespace c = false := by
  cases l with
  | nil => simp [stripRight, stripLeft] at h
  | cons x xs =>
    -- `stripRight (x :: xs)` is the reverse of a suffix of `(x :: xs).reverse`;
    -- reversing back shows it is a prefix of `x :: xs`, so its head is `x`.
    obtain ⟨u, hu⟩ := List.dropWhile_suffix (l := (x :: xs).reverse) Char.isWhitespace
    have h2 : c :: (t ++ u.reverse) = x :: xs := by
      have h3 := congrArg List.reverse hu
      rw [List.reverse_append, List.reverse_reverse] at h3
      rw [show ((x :: xs).reverse.dropWhile Char.isWhitespace).reverse
            = stripRight (x :: xs) from rfl, h] at h3
      rw [← h3, List.cons_append]
    injection h2 with h4 _
    rw [h4]
    exact hl x xs rfl

theorem stripBoth_data_idem (l : List Char) :
    stripRight (stripLeft (stripRight (stripLeft l))) = stripRight (stripLeft l) := by
  have h1 : stripLeft (stripRight (stripLeft l)) = stripRight (stripLeft l) := by
    apply dropWhile_of_head_fail
    intro c t h
    exact stripRight_head_fail (fun c' t' h' => dropWhile_head_fail h') h
  rw [h1, stripRight_idem]

theorem pyStrip_idem (s : String) : pyStrip (pyStrip s) = pyStrip s :=
  congrArg String.mk (stripBoth_data_idem s.data)

theorem pyLower_data (s : String) : (pyLower s).data = s.data.map Char.toLower := rfl

theorem pyLower_idem (s : String) : pyLower (pyLower s) = pyLower s :=
  congrArg String.mk (by
    rw [pyLower_data, List.map_map]
    exact List.map_congr_left (fun c _ => toLower_idem c))

theorem stripLeft_map_toLower (l : List Char) :
    stripLeft (l.map Char.toLower) = (stripLeft l).map Char.toLower := by
  unfold stripLeft
  rw [List.dropWhile_map]
  have hp : (Char.isWhitespace ∘ Char.toLower) = Char.isWhitespace := by
    funext c
    simp [Function.comp, isWhitespace_toLower]
  rw [hp]

theorem pyStrip_pyLower_comm (s : String) : pyStrip (pyLower s) = pyLower (pyStrip s) :=
  congrArg String.mk (by
    show stripRight (stripLeft (s.data.map Char.toLower))
        = (stripRight (stripLeft s.data)).map Char.toLower
    unfold stripRight
    rw [stripLeft_map_toLower, ← List.map_reverse, stripLeft_map_toLower, List.map_reverse])

theorem pyLower_length (s : String) : (pyLower s).data.length = s.data.length := by
  rw [pyLower_data, List.length_map]

theorem pyLower_pyStrip_ne_empty {s : String} (h : pyStrip s ≠ "") :
    pyLower (pyStrip s) ≠ "" := by
  intro he
  apply h
  have h0 : (pyLower (pyStrip s)).data.length = 0 := by rw [he]; rfl
  rw [pyLower_length] at h0
  have h1 : (pyStrip s).data = [] := List.length_eq_zero.mp h0
  exact congrArg String.mk h1

/-! ## Stable sorting (model of Python's stable `list.sort(..., reverse=True)`) -/

/-- Insert `x` into a score-descending list, before the first element whose
key is `≤` the key of `x`; equal keys keep the incoming element first,
which is exactly the stability guarantee of Python's sort. -/
def insKeyDesc (key : α → ℚ) (x : α) : List α → List α
  | [] => [x]
  | y :: ys => if key y ≤ key x then x :: y :: ys else y :: insKeyDesc key x ys

/-- Stable insertion sort by a rational key, descending. Extensionally equal
to Python's stable `list.sort(key=..., reverse=True)`. -/
def sortKeyDesc (key : α → ℚ) : List α → List α
  | [] => []
  | x :: xs => insKeyDesc key x (sortKeyDesc key xs)

/-- Deduplication preserving first-seen order, the model of Python's
`list(dict.fromkeys(lst))`; `seen` is the set of keys already emitted. -/
def dedupFirstAux (seen : List String) : List String → List String
  | [] => []
  | x :: xs =>
    if x ∈ seen then dedupFirstAux seen xs else x :: dedupFirstAux (x :: seen) xs

/-- `list(dict.fromkeys(lst))`: remove duplicates keeping first occurrences. -/
def dedupFirst (l : List String) : List String := dedupFirstAux [] l

/-! ## The `SkillsMatcher` model (`src/api/app/models/skills_matcher.py`)

The sentence-transformer model and the cosine-similarity kernel are black-box
oracles: `encode` stands for `self.model.encode` and `cos_sim` for
`util.pytorch_cos_sim` on a pair of vectors (kept abstract, as cosine over
real vectors does not stay in `ℚ`; no claim depends on its formula). -/

structure SkillsMatcher where
  /-- Black box for `self.model.encode(text)`. -/
  encode : String → List ℚ
  /-- Black box for `util.pytorch_cos_sim(a, b)` on a single pair. -/
  cos_sim : List ℚ → List ℚ → ℚ
  /-- `self.corpus`. -/
  corpus : List String
  /-- `self.corpus_embeddings`; `none` models Python `None`. -/
  corpus_embeddings : Option (List (List ℚ))

/-- The state right after `__init__` (corpus empty, embeddings `None`). -/
def SkillsMatcher.init (encode : String → List ℚ) (cos_sim : List ℚ → List ℚ → ℚ) :
    SkillsMatcher :=
  { encode := encode, cos_sim := cos_sim, corpus := [], corpus_embeddings := none }

/-- Errors named by the specification's error taxonomy (§7). The Python code
below never raises any of them; the constructors exist so that the spec's
claims about them can be stated. -/
inductive SpecError where
  | corpusUnavailable
  | indexNotReady
  | emptyRequirements
deriving DecidableEq

/-- Result of `build_corpus`: either an uncaught exception or the updated
matcher state. -/
inductive BuildOutcome where
  | raised (e : SpecError)
  | built (m : SkillsMatcher)

/-- `SkillsMatcher.build_corpus`: normalize each term (strip + lower),
drop terms that are empty after stripping, deduplicate keeping first-seen
order, and embed the surviving terms. The Python body never raises (its
`try` re-raises only if a step throws, and `encode_texts` swallows its own
exceptions), so the outcome is always `built`. -/
def build_corpus (m : SkillsMatcher) (skills : List String) : BuildOutcome :=
  let corpus := dedupFirst
    ((skills.filter (fun s => pyStrip s ≠ "")).map (fun s => pyLower (pyStrip s)))
  .built { m with corpus := corpus, corpus_embeddings := some (corpus.map m.encode) }

/-- `SkillsMatcher.is_corpus_ready` (the loaded `self.model` is implicit in
the state: a failed model load aborts `__init__` before any state exists). -/
def is_corpus_ready (m : SkillsMatcher) : Bool :=
  m.corpus_embeddings.isSome && decide (0 < m.corpus.length)

/-- `SkillsMatcher.find_similar`: embed the normalized query, score every
corpus entry, keep the scores `≥ threshold`, sort by score descending
(stable) and truncate to `top_k`. `zip` models `enumerate(similarities)`
indexing into `self.corpus` (the two lists are built in lockstep). -/
def find_similar (m : SkillsMatcher) (query : String) (top_k : Nat) (threshold : ℚ) :
    List (String × ℚ) :=
  match m.corpus_embeddings with
  | none => []
  | some embs =>
    if m.corpus.length = 0 then []
    else
      let query_embedding := m.encode (pyLower (pyStrip query))
      let similarities := embs.map (fun e => m.cos_sim query_embedding e)
      let results := (m.corpus.zip similarities).filter (fun p => threshold ≤ p.2)
      (sortKeyDesc (fun p => p.2) results).take top_k

/-! ## Specification-side description of `find_similar` (for C1)

The spec sentence says: keep entries with `score ≥ threshold`, sort by score
descending with ties broken by original corpus insertion order, truncate to
`top_k`, and return the empty sequence when the index is not ready. The sort
here is by the strict linear order "higher score first, equal scores ordered
by corpus position" on index-tagged entries, which is a total order, so this
pins the output down uniquely. -/

/-- Insertion into a list ordered by the strict order
"(score descending, corpus index ascending)". -/
def insLex (score : α → ℚ) (idx : α → Nat) (x : α) : List α → List α
  | [] => [x]
  | y :: ys =>
    if score y < score x ∨ (score y = score x ∧ idx x < idx y) then x :: y :: ys
    else y :: insLex score idx x ys

/-- Sort by the strict linear order "(score descending, index ascending)". -/
def sortLex (score : α → ℚ) (idx : α → Nat) : List α → List α
  | [] => []
  | x :: xs => insLex score idx x (sortLex score idx xs)

/-- Spec-side description of `find_similar` (following the spec's words):
empty when the index is not ready; otherwise, of the index-tagged scored
corpus entries, exactly those scoring `≥ threshold`, ordered score
descending with ties broken by corpus insertion order, truncated to
`top_k`. -/
def findSimilarSpec (m : SkillsMatcher) (query : String) (top_k : Nat) (threshold : ℚ) :
    List (String × ℚ) :=
  match m.corpus_embeddings with
  | none => []
  | some embs =>
    if m.corpus.length = 0 then []
    else
      let query_embedding := m.encode (pyLower (pyStrip query))
      let scored := m.corpus.zip (embs.map (fun e => m.cos_sim query_embedding e))
      let kept := scored.enum.filter (fun p => threshold ≤ p.2.2)
      ((sortLex (fun p => p.2.2) Prod.fst kept).take top_k).map Prod.snd

/-! ## Stability of the sort: the stable descending sort of index-tagged
entries (indices strictly increasing along the list) coincides with the
sort by the strict linear order "(score desc, index asc)". -/

theorem mem_insLex {score : α → ℚ} {idx : α → Nat} {x y : α} :
    ∀ {ys : List α}, y ∈ insLex score idx x ys ↔ y = x ∨ y ∈ ys := by
  intro ys
  induction ys with
  | nil => simp [insLex]
  | cons z zs ih =>
    unfold insLex
    split
    · simp
    · simp only [List.mem_cons, ih]
      tauto

theorem mem_sortLex {score : α → ℚ} {idx : α → Nat} {y : α} :
    ∀ {l : List α}, y ∈ sortLex score idx l ↔ y ∈ l := by
  intro l
  induction l with
  | nil => simp [sortLex]
  | cons x xs ih =>
    unfold sortLex
    rw [mem_insLex]
    simp [ih]

theorem map_snd_insLex {score : β → ℚ} (x : Nat × β) (ys : List (Nat × β))
    (h : ∀ y ∈ ys, x.1 < y.1) :
    (insLex (fun p => score p.2) Prod.fst x ys).map Prod.snd
      = insKeyDesc score x.2 (ys.map Prod.snd) := by
  induction ys with
  | nil => rfl
  | cons y ys ih =>
    have hy : x.1 < y.1 := h y (List.mem_cons_self y ys)
    unfold insLex
    rcases lt_trichotomy (score y.2) (score x.2) with hlt | heq | hgt
    · rw [if_pos (Or.inl hlt)]
      simp only [List.map_cons]
      rw [insKeyDesc]
      rw [if_pos (le_of_lt hlt)]
    · rw [if_pos (Or.inr ⟨heq, hy⟩)]
      simp only [List.map_cons]
      rw [insKeyDesc]
      rw [if_pos (le_of_eq heq)]
    · rw [if_neg (by
        rintro (h1 | ⟨h2, _⟩)
        · exact absurd h1 (not_lt.mpr (le_of_lt hgt))
        · exact absurd h2 (ne_of_gt hgt))]
      simp only [List.map_cons]
      rw [insKeyDesc]
      rw [if_neg (not_le.mpr hgt)]
      rw [← ih (fun y hy => h y (List.mem_cons_of_mem _ hy))]

theorem map_snd_sortLex (score : β → ℚ) (l : List (Nat × β))
    (h : l.Pairwise (fun a b => a.1 < b.1)) :
    (sortLex (fun p => score p.2) Prod.fst l).map Prod.snd
      = sortKeyDesc score (l.map Prod.snd) := by
  induction l with
  | nil => rfl
  | cons x xs ih =>
    rcases List.pairwise_cons.mp h with ⟨hx, htl⟩
    unfold sortLex
    rw [map_snd_insLex x _ (fun y hy => hx y (mem_sortLex.mp hy))]
    simp only [List.map_cons]
    rw [ih htl]
    rfl

theorem mem_enumFrom_fst_le {l : List α} :
    ∀ {i : Nat} {p : Nat × α}, p ∈ l.enumFrom i → i ≤ p.1 := by
  induction l with
  | nil => intro i p h; simp at h
  | cons x xs ih =>
    intro i p h
    rw [List.enumFrom_cons] at h
    rcases List.mem_cons.mp h with h | h
    · rw [h]
    · exact Nat.le_of_succ_le (ih h)

theorem pairwise_fst_lt_enumFrom (l : List α) :
    ∀ i, (l.enumFrom i).Pairwise (fun a b => a.1 < b.1) := by
  induction l with
  | nil => intro i; simp
  | cons x xs ih =>
    intro i
    rw [List.enumFrom_cons]
    exact List.pairwise_cons.mpr
      ⟨fun p hp => Nat.lt_of_succ_le (mem_enumFrom_fst_le hp), ih (i + 1)⟩

theorem map_snd_enumFrom (l : List α) : ∀ i, (l.enumFrom i).map Prod.snd = l := by
  induction l with
  | nil => intro i; rfl
  | cons x xs ih =>
    intro i
    rw [List.enumFrom_cons, List.map_cons, ih (i + 1)]

theorem map_snd_enum (l : List α) : l.enum.map Prod.snd = l := map_snd_enumFrom l 0

theorem pairwise_fst_lt_enum (l : List α) : l.enum.Pairwise (fun a b => a.1 < b.1) :=
  pairwise_fst_lt_enumFrom l 0

/-- C1: for every query, `top_k` and threshold, `find_similar` returns
exactly the stored corpus entries scoring `≥ threshold`, ordered by score
descending with ties broken by original corpus insertion order (the strict
linear order of `sortLex`), truncated to `top_k` (first conjunct; when
nothing clears the threshold the kept set — and hence the result — is
empty); and the empty sequence whenever the index is not ready (second
conjunct). -/
theorem find_similar_returns_sorted_filtered_truncated :
    (∀ (m : SkillsMatcher) (query : String) (top_k : Nat) (threshold : ℚ),
      find_similar m query top_k threshold = findSimilarSpec m query top_k threshold) ∧
    (∀ (m : SkillsMatcher) (query : String) (top_k : Nat) (threshold : ℚ),
      is_corpus_ready m = false → find_similar m query top_k threshold = []) := by
  constructor
  · intro m query top_k threshold
    unfold find_similar findSimilarSpec
    cases m.corpus_embeddings with
    | none => rfl
    | some embs =>
      dsimp only
      by_cases hc : m.corpus.length = 0
      · rw [if_pos hc, if_pos hc]
      · rw [if_neg hc, if_neg hc]
        set L := m.corpus.zip
          (embs.map (fun e => m.cos_sim (m.encode (pyLower (pyStrip query))) e)) with hL
        set kept := L.enum.filter (fun p => threshold ≤ p.2.2) with hkept
        have hpair : kept.Pairwise (fun a b => a.1 < b.1) :=
          List.Pairwise.filter _ (pairwise_fst_lt_enum L)
        have h1 : (sortLex (fun p : Nat × String × ℚ => p.2.2) Prod.fst kept).map Prod.snd
            = sortKeyDesc (fun b : String × ℚ => b.2) (kept.map Prod.snd) :=
          map_snd_sortLex (fun b : String × ℚ => b.2) kept hpair
        have h2 : kept.map Prod.snd = L.filter (fun b => threshold ≤ b.2) := by
          have h3 := List.filter_map (p := fun b : String × ℚ => decide (threshold ≤ b.2))
            Prod.snd L.enum
          rw [map_snd_enum] at h3
          exact h3.symm
        rw [List.map_take, h1, h2]
  · intro m query top_k threshold h
    unfold is_corpus_ready at h
    unfold find_similar
    cases hme : m.corpus_embeddings with
    | none => rfl
    | some embs =>
      dsimp only
      rw [hme, Option.isSome_some, Bool.true_and] at h
      have h0 : m.corpus.length = 0 := Nat.eq_zero_of_not_pos (of_decide_eq_false h)
      rw [if_pos h0]

/-- Witness for C1's second conjunct at a concrete unready state. -/
theorem find_similar_returns_sorted_filtered_truncated_witness :
    is_corpus_ready (SkillsMatcher.init (fun _ => []) (fun _ _ => 0)) = false ∧
      find_similar (SkillsMatcher.init (fun _ => []) (fun _ _ => 0)) "q" 3 0 = [] :=
  ⟨rfl, find_similar_returns_sorted_filtered_truncated.2
    (SkillsMatcher.init (fun _ => []) (fun _ _ => 0)) "q" 3 0 rfl⟩

/-! ## Length lemmas for the sort, and claim C3 -/

theorem length_insKeyDesc (key : α → ℚ) (x : α) :
    ∀ l : List α, (insKeyDesc key x l).length = l.length + 1 := by
  intro l
  induction l with
  | nil => rfl
  | cons y ys ih =>
    unfold insKeyDesc
    split
    · rfl
    · simp only [List.length_cons, ih]

theorem length_sortKeyDesc (key : α → ℚ) :
    ∀ l : List α, (sortKeyDesc key l).length = l.length := by
  intro l
  induction l with
  | nil => rfl
  | cons x xs ih =>
    unfold sortKeyDesc
    rw [length_insKeyDesc, ih, List.length_cons]

/-- C3: for thresholds `t1 ≤ t2` and a `top_k` large enough to impose no
truncation, raising the threshold can only shrink the result of
`find_similar`. -/
theorem find_similar_threshold_monotone
    (m : SkillsMatcher) (query : String) (top_k : Nat) (t1 t2 : ℚ)
    (h12 : t1 ≤ t2) (hk : m.corpus.length ≤ top_k) :
    (find_similar m query top_k t2).length ≤ (find_similar m query top_k t1).length := by
  unfold find_similar
  cases m.corpus_embeddings with
  | none => exact Nat.le_refl 0
  | some embs =>
    dsimp only
    by_cases hc : m.corpus.length = 0
    · rw [if_pos hc, if_pos hc]
    · rw [if_neg hc, if_neg hc]
      set L := m.corpus.zip
        (embs.map (fun e => m.cos_sim (m.encode (pyLower (pyStrip query))) e)) with hL
      have hLlen : L.length ≤ top_k := by
        rw [hL, List.length_zip]
        exact le_trans (Nat.min_le_left _ _) hk
      have hlen : ∀ t : ℚ,
          ((sortKeyDesc (fun p : String × ℚ => p.2)
              (L.filter (fun p => t ≤ p.2))).take top_k).length
            = (L.filter (fun p => t ≤ p.2)).length := by
        intro t
        rw [List.length_take, length_sortKeyDesc]
        exact Nat.min_eq_right (le_trans (List.length_filter_le _ _) hLlen)
      rw [hlen t1, hlen t2]
      exact List.Sublist.length_le
        (List.monotone_filter_right L
          (fun a ha => decide_eq_true (le_trans h12 (of_decide_eq_true ha))))

/-- C10: `find_similar` normalizes its query (strip + lower) before
embedding, so two queries that differ only in letter case, or only in
leading/trailing whitespace, produce identical results. -/
theorem find_similar_query_normalization_invariance
    (m : SkillsMatcher) (q q' : String) (top_k : Nat) (threshold : ℚ)
    (h : pyLower q' = pyLower q ∨ pyStrip q' = pyStrip q) :
    find_similar m q' top_k threshold = find_similar m q top_k threshold := by
  have hn : pyLower (pyStrip q') = pyLower (pyStrip q) := by
    rcases h with h | h
    · rw [← pyStrip_pyLower_comm, ← pyStrip_pyLower_comm, h]
    · rw [h]
  unfold find_similar
  rw [hn]

/-! ## Concrete states used by the witnesses -/

/-- A matcher as left by `__init__` (nothing built yet). -/
def exInit : SkillsMatcher := SkillsMatcher.init (fun _ => []) (fun _ _ => 0)

/-- A concrete built matcher: two corpus entries whose (oracle) scores
against any query are `1/4` and `3/4`. -/
def exM : SkillsMatcher :=
  { encode := fun _ => []
    cos_sim := fun _ e => e.headD 0
    corpus := ["python", "java"]
    corpus_embeddings := some [[1/4], [3/4]] }

/-- Witness for C3 at a concrete state: thresholds `0 ≤ 1/2`, no
truncation with `top_k = 5`. -/
theorem find_similar_threshold_monotone_witness :
    ((0:ℚ) ≤ 1/2) ∧ exM.corpus.length ≤ 5 ∧
      (find_similar exM "q" 5 (1/2)).length ≤ (find_similar exM "q" 5 0).length :=
  ⟨by norm_num, by decide,
    find_similar_threshold_monotone exM "q" 5 0 (1/2) (by norm_num) (by decide)⟩

/-- Witness for C10 at concrete queries differing only in letter case. -/
theorem find_similar_query_normalization_invariance_witness :
    (pyLower "PYTHON" = pyLower "Python" ∨ pyStrip "PYTHON" = pyStrip "Python") ∧
      find_similar exM "PYTHON" 5 0 = find_similar exM "Python" 5 0 :=
  ⟨Or.inl (by decide),
    find_similar_query_normalization_invariance exM "Python" "PYTHON" 5 0 (Or.inl (by decide))⟩

/-! ## Claim C4: behaviour of `build_corpus` on degenerate input, and
`is_corpus_ready` -/

/-- The state `build_corpus` produces from an input whose terms are all
blank: the corpus stays empty and the embeddings become `some []`
(`encode_texts` is still called on the empty list). -/
def exBlankBuilt : SkillsMatcher := { exInit with corpus := [], corpus_embeddings := some [] }

/-- C4 counterexample: `build_corpus` on an all-blank input does NOT fail
with `CorpusUnavailableError` (no error of the spec's taxonomy is raised
anywhere in the build path); it completes normally with an empty, unready
index. -/
theorem build_corpus_blank_input_cex :
    build_corpus exInit ["", "   "] = BuildOutcome.built exBlankBuilt ∧
    build_corpus exInit ["", "   "] ≠ BuildOutcome.raised SpecError.corpusUnavailable ∧
    is_corpus_ready exBlankBuilt = false :=
  ⟨rfl, fun h => BuildOutcome.noConfusion h, rfl⟩

/-- C4 (amended): `build_corpus` never raises any error of the spec's
taxonomy — on all-blank input it completes with an empty corpus and the
index remaining unready — and after any build the index is ready exactly
when the resulting vocabulary is non-empty (while a freshly initialized
matcher is never ready). -/
theorem build_corpus_blank_unready_and_ready_iff :
    (∀ (m : SkillsMatcher) (skills : List String) (e : SpecError),
        build_corpus m skills ≠ BuildOutcome.raised e) ∧
    (∀ (m : SkillsMatcher) (skills : List String) (m' : SkillsMatcher),
        build_corpus m skills = BuildOutcome.built m' →
        ((∀ s ∈ skills, pyStrip s = "") → m'.corpus = [] ∧ is_corpus_ready m' = false) ∧
        (is_corpus_ready m' = true ↔ m'.corpus ≠ [])) ∧
    (∀ (enc : String → List ℚ) (cs : List ℚ → List ℚ → ℚ),
        is_corpus_ready (SkillsMatcher.init enc cs) = false) := by
  refine ⟨fun m skills e h => BuildOutcome.noConfusion h, fun m skills m' h => ?_, fun enc cs => rfl⟩
  unfold build_corpus at h
  injection h with h
  subst h
  constructor
  · intro hblank
    have hf : skills.filter (fun s => pyStrip s ≠ "") = [] :=
      List.filter_eq_nil_iff.mpr
        (fun s hs hp => of_decide_eq_true hp (hblank s hs))
    rw [hf]
    exact ⟨rfl, rfl⟩
  · unfold is_corpus_ready
    dsimp only
    constructor
    · intro h
      rcases Bool.and_eq_true_iff.mp h with ⟨-, h2⟩
      intro hnil
      rw [hnil] at h2
      exact absurd (of_decide_eq_true h2) (by simp)
    · intro hne
      rw [Option.isSome_some, Bool.true_and]
      exact decide_eq_true (List.length_pos.mpr hne)

/-- Witness for C4 (amended) at a concrete all-blank input. -/
theorem build_corpus_blank_unready_and_ready_iff_witness :
    (build_corpus exInit [""] = BuildOutcome.built exBlankBuilt) ∧
      ((∀ s ∈ ([""] : List String), pyStrip s = "") →
        exBlankBuilt.corpus = [] ∧ is_corpus_ready exBlankBuilt = false) ∧
      (∀ s ∈ ([""] : List String), pyStrip s = "") :=
  ⟨rfl,
    (build_corpus_blank_unready_and_ready_iff.2.1 exInit [""] exBlankBuilt rfl).1,
    by decide⟩

/-! ## Properties of first-seen deduplication, and claim C9 -/

theorem mem_dedupFirstAux {x : String} :
    ∀ {l seen : List String}, x ∈ dedupFirstAux seen l ↔ x ∈ l ∧ x ∉ seen := by
  intro l
  induction l with
  | nil => intro seen; simp [dedupFirstAux]
  | cons y ys ih =>
    intro seen
    unfold dedupFirstAux
    by_cases hy : y ∈ seen
    · rw [if_pos hy, ih]
      simp only [List.mem_cons]
      constructor
      · rintro ⟨h1, h2⟩
        exact ⟨Or.inr h1, h2⟩
      · rintro ⟨h1 | h1, h2⟩
        · exact absurd (h1 ▸ hy) h2
        · exact ⟨h1, h2⟩
    · rw [if_neg hy]
      simp only [List.mem_cons, ih, List.mem_cons]
      constructor
      · rintro (h | ⟨h1, h2⟩)
        · exact ⟨Or.inl h, fun hx => hy (h ▸ hx)⟩
        · exact ⟨Or.inr h1, fun hc => h2 (Or.inr hc)⟩
      · rintro ⟨h1 | h1, h2⟩
        · exact Or.inl h1
        · by_cases hxy : x = y
          · exact Or.inl hxy
          · exact Or.inr ⟨h1, fun hc => hc.elim hxy h2⟩

theorem pairwise_indexOf_dedupFirstAux :
    ∀ (l seen : List String),
      (dedupFirstAux seen l).Pairwise (fun a b => l.indexOf a < l.indexOf b) := by
  intro l
  induction l with
  | nil => intro seen; exact List.Pairwise.nil
  | cons y ys ih =>
    intro seen
    unfold dedupFirstAux
    by_cases hy : y ∈ seen
    · rw [if_pos hy]
      refine List.Pairwise.imp_of_mem ?_ (ih seen)
      intro a b ha hb hab
      have hane : a ≠ y := fun he => (mem_dedupFirstAux.mp ha).2 (he ▸ hy)
      have hbne : b ≠ y := fun he => (mem_dedupFirstAux.mp hb).2 (he ▸ hy)
      rw [List.indexOf_cons_ne _ (Ne.symm hane), List.indexOf_cons_ne _ (Ne.symm hbne)]
      exact Nat.succ_lt_succ hab
    · rw [if_neg hy]
      refine List.pairwise_cons.mpr ⟨?_, ?_⟩
      · intro b hb
        have hbne : b ≠ y := fun he =>
          (mem_dedupFirstAux.mp hb).2 (he ▸ List.mem_cons_self y seen)
        rw [List.indexOf_cons_self, List.indexOf_cons_ne _ (Ne.symm hbne)]
        exact Nat.succ_pos _
      · refine List.Pairwise.imp_of_mem ?_ (ih (y :: seen))
        intro a b ha hb hab
        have hane : a ≠ y := fun he =>
          (mem_dedupFirstAux.mp ha).2 (he ▸ List.mem_cons_self y seen)
        have hbne : b ≠ y := fun he =>
          (mem_dedupFirstAux.mp hb).2 (he ▸ List.mem_cons_self y seen)
        rw [List.indexOf_cons_ne _ (Ne.symm hane), List.indexOf_cons_ne _ (Ne.symm hbne)]
        exact Nat.succ_lt_succ hab

/-- C9: after `build_corpus`, every stored vocabulary entry is lowercased,
trimmed and non-empty; the entries are pairwise distinct; and their order
is the first-seen order of the normalized input terms (each entry's first
occurrence in the normalized input list comes strictly before the next
entry's). -/
theorem build_corpus_normalization_invariants
    (m : SkillsMatcher) (skills : List String) (m' : SkillsMatcher)
    (h : build_corpus m skills = BuildOutcome.built m') :
    (∀ e ∈ m'.corpus, pyLower e = e ∧ pyStrip e = e ∧ e ≠ "") ∧
    m'.corpus.Nodup ∧
    (∀ x, x ∈ m'.corpus ↔
        x ∈ (skills.filter (fun s => pyStrip s ≠ "")).map (fun s => pyLower (pyStrip s))) ∧
    m'.corpus.Pairwise (fun a b =>
      ((skills.filter (fun s => pyStrip s ≠ "")).map (fun s => pyLower (pyStrip s))).indexOf a
        < ((skills.filter (fun s => pyStrip s ≠ "")).map (fun s => pyLower (pyStrip s))).indexOf b) := by
  unfold build_corpus at h
  injection h with h
  subst h
  dsimp only
  set ns := (skills.filter (fun s => pyStrip s ≠ "")).map (fun s => pyLower (pyStrip s)) with hns
  have hpair : (dedupFirst ns).Pairwise (fun a b => ns.indexOf a < ns.indexOf b) :=
    pairwise_indexOf_dedupFirstAux ns []
  refine ⟨?_, ?_, ?_, hpair⟩
  · intro e he
    have hm := (mem_dedupFirstAux.mp he).1
    rw [hns] at hm
    rcases List.mem_map.mp hm with ⟨s, hs, hes⟩
    have hsne : pyStrip s ≠ "" := of_decide_eq_true (List.mem_filter.mp hs).2
    subst hes
    refine ⟨?_, ?_, pyLower_pyStrip_ne_empty hsne⟩
    · exact pyLower_idem (pyStrip s)
    · rw [pyStrip_pyLower_comm, pyStrip_idem]
  · refine hpair.imp ?_
    intro a b hlt he
    rw [he] at hlt
    exact Nat.lt_irrefl _ hlt
  · intro x
    unfold dedupFirst
    rw [mem_dedupFirstAux]
    simp

/-- A concrete run of `build_corpus` for the C9 witness:
normalization maps the input to `["python", "python", "java"]`, which
dedups to `["python", "java"]`. -/
def exBuilt9 : SkillsMatcher :=
  { exInit with corpus := ["python", "java"], corpus_embeddings := some [[], []] }

/-- Witness for C9 at a concrete input list. -/
theorem build_corpus_normalization_invariants_witness :
    (build_corpus exInit ["  Python ", "python", "", "Java"] = BuildOutcome.built exBuilt9) ∧
    (∀ e ∈ exBuilt9.corpus, pyLower e = e ∧ pyStrip e = e ∧ e ≠ "") ∧
    exBuilt9.corpus.Nodup :=
  ⟨rfl,
    (build_corpus_normalization_invariants exInit ["  Python ", "python", "", "Java"]
      exBuilt9 rfl).1,
    (build_corpus_normalization_invariants exInit ["  Python ", "python", "", "Java"]
      exBuilt9 rfl).2.1⟩

/-! ## The extraction service (`src/api/app/services/extraction_service.py`)

Each service function is instrumented to additionally return the list of
queries it sent to `find_similar`, in order, so that "performs no index
query" claims can be stated; the instrumentation does not alter any
result. String formatting of the percentage (`f"{pct}%"`) is abstracted:
`match_percentage` holds the integer. The `analysis` sub-dictionary of the
full result is not modelled (no claim mentions it). -/

/-- One entry of the list returned by `match_skills_with_bert`. -/
structure MatchedSkill where
  original : String
  matched_skill : Option String
  similarity_score : ℚ
  confidence : String
  reason : Option String
deriving DecidableEq

/-- Result of `match_skills_with_bert`: either an uncaught exception or the
normal return value. The Python body never raises. -/
inductive BertOutput where
  | raised (e : SpecError)
  | ok (skills : List MatchedSkill)
deriving DecidableEq

/-- `SkillExtractionService.match_skills_with_bert`: empty input, an
unready index, or no valid (non-blank) skill short-circuit to `[]`
(logged, not raised); otherwise each stripped skill is matched through
`find_similar`, with confidence `high` above `0.85` else `medium`, and a
low-confidence no-match entry when nothing clears the threshold. -/
def match_skills_with_bert (m : SkillsMatcher) (skills : List String)
    (threshold : ℚ) (top_k : Nat) : BertOutput × List String :=
  if skills = [] then (.ok [], [])
  else if is_corpus_ready m = false then (.ok [], [])
  else
    let valid_skills := skills.filter (fun s => pyStrip s ≠ "")
    if valid_skills = [] then (.ok [], [])
    else
      let step := fun (acc : List MatchedSkill × List String) (skill : String) =>
        let skill' := pyStrip skill
        if skill' = "" then acc
        else
          match find_similar m skill' top_k threshold with
          | (best, score) :: _ =>
            (acc.1 ++ [{ original := skill', matched_skill := some best,
                         similarity_score := score,
                         confidence := if 85/100 < score then "high" else "medium",
                         reason := none }], acc.2 ++ [skill'])
          | [] =>
            (acc.1 ++ [{ original := skill', matched_skill := none,
                         similarity_score := 0, confidence := "low",
                         reason := some "Sem match acima do threshold" }], acc.2 ++ [skill'])
      let r := valid_skills.foldl step ([], [])
      (.ok r.1, r.2)

/-- C5 counterexample: with an unready index and a non-empty candidate
list, `match_skills_with_bert` does NOT raise `IndexNotReadyError`; it
returns the empty list normally (and sends no query). -/
theorem match_skills_with_bert_not_ready_cex :
    (match_skills_with_bert exInit ["python"] (3/4) 1).1 = BertOutput.ok [] ∧
    (match_skills_with_bert exInit ["python"] (3/4) 1).1
      ≠ BertOutput.raised SpecError.indexNotReady :=
  ⟨rfl, fun h => BertOutput.noConfusion h⟩

/-- C5 (amended): whenever the index is not ready, `match_skills_with_bert`
returns the empty list without raising and without processing any
candidate (no query is issued). -/
theorem match_skills_with_bert_not_ready_returns_empty
    (m : SkillsMatcher) (skills : List String) (threshold : ℚ) (top_k : Nat)
    (h : is_corpus_ready m = false) :
    match_skills_with_bert m skills threshold top_k = (BertOutput.ok [], []) := by
  unfold match_skills_with_bert
  by_cases hs : skills = []
  · rw [if_pos hs]
  · rw [if_neg hs, if_pos h]

/-- Witness for C5 (amended) at a concrete unready state. -/
theorem match_skills_with_bert_not_ready_returns_empty_witness :
    is_corpus_ready exInit = false ∧
      match_skills_with_bert exInit ["python"] (3/4) 1 = (BertOutput.ok [], []) :=
  ⟨rfl, match_skills_with_bert_not_ready_returns_empty exInit ["python"] (3/4) 1 rfl⟩

/-- The full (main-path) return value of `calculate_profile_match`. -/
structure ProfileMatchResult where
  match_score : ℚ
  match_percentage : ℤ
  level : String
  matched_skills : List String
  matched_count : Nat
  missing_skills : List String
  missing_count : Nat
  required_skills : List String
  required_count : Nat
deriving DecidableEq

/-- The early return of `calculate_profile_match` for an empty
candidate-skill list. -/
structure ZeroProfileResult where
  match_score : ℚ
  match_percentage : ℤ
  required_skills : List String
  matched_skills : List String
  missing_skills : List String
  analysis : String
deriving DecidableEq

/-- Observable outcome of `calculate_profile_match`: an uncaught exception
(never produced by the code), the `{"error": ...}` dictionary, the
zero-score early return, or the full result. -/
inductive ProfileOutput where
  | raised (e : SpecError)
  | errorDict (msg : String)
  | zeroResult (r : ZeroProfileResult)
  | full (r : ProfileMatchResult)
deriving DecidableEq

/-- The qualification-level cascade inlined in `calculate_profile_match`. -/
def levelFor (pct : ℤ) : String :=
  if pct ≥ 90 then "EXCELENTE - Candidato altamente qualificado"
  else if pct ≥ 75 then "BOM - Candidato bem qualificado"
  else if pct ≥ 60 then "MODERADO - Candidato com experiência relevante"
  else if pct ≥ 40 then "BAIXO - Candidato precisaria de treinamento"
  else "INSUFICIENTE - Falta experiência significativa"

/-- The loop body of `calculate_profile_match` (one requirement).
State: (matched_skills, missing_skills, scores, queries issued). -/
def profileStep (m : SkillsMatcher) (candidate_skills_lower : List String)
    (acc : List String × List String × List ℚ × List String) (requirement : String) :
    List String × List String × List ℚ × List String :=
  let req_lower := pyLower requirement
  if candidate_skills_lower.any (fun cs => pyIn req_lower cs || pyIn cs req_lower) then
    (acc.1 ++ [requirement], acc.2.1, acc.2.2.1 ++ [1], acc.2.2.2)
  else
    match find_similar m requirement 1 (70/100) with
    | (matched_skill, score) :: _ =>
      if pyLower matched_skill ∈ candidate_skills_lower then
        (acc.1 ++ [requirement], acc.2.1, acc.2.2.1 ++ [score], acc.2.2.2 ++ [requirement])
      else
        (acc.1, acc.2.1 ++ [requirement], acc.2.2.1, acc.2.2.2 ++ [requirement])
    | [] => (acc.1, acc.2.1 ++ [requirement], acc.2.2.1, acc.2.2.2 ++ [requirement])

/-- `SkillExtractionService.calculate_profile_match`. The weight
parameters are accepted and never read, exactly as in the Python body. -/
def calculate_profile_match (m : SkillsMatcher)
    (candidate_skills job_requirements : List String)
    (weight_match weight_similarity : ℚ) : ProfileOutput × List String :=
  if job_requirements = [] then (.errorDict "Nenhum requisito fornecido", [])
  else if candidate_skills = [] then
    (.zeroResult
      { match_score := 0
        match_percentage := 0
        required_skills := job_requirements
        matched_skills := []
        missing_skills := job_requirements
        analysis := "Candidato não possui nenhuma skill mapeada" }, [])
  else
    let candidate_skills_lower := candidate_skills.map pyLower
    let r := job_requirements.foldl (profileStep m candidate_skills_lower) ([], [], [], [])
    let avg_score : ℚ := if r.2.2.1 = [] then 0 else r.2.2.1.sum / (job_requirements.length : ℚ)
    let match_percentage : ℤ := min 100 (pyInt (avg_score * 100))
    (.full
      { match_score := avg_score
        match_percentage := match_percentage
        level := levelFor match_percentage
        matched_skills := r.1
        matched_count := r.1.length
        missing_skills := r.2.1
        missing_count := r.2.1.length
        required_skills := job_requirements
        required_count := job_requirements.length }, r.2.2.2)

/-- C7: the `weight_match` / `weight_similarity` parameters have no
influence whatsoever on the result of `calculate_profile_match`. -/
theorem calculate_profile_match_ignores_weights
    (m : SkillsMatcher) (candidate_skills job_requirements : List String)
    (w1 w2 w1' w2' : ℚ) :
    calculate_profile_match m candidate_skills job_requirements w1 w2
      = calculate_profile_match m candidate_skills job_requirements w1' w2' := rfl

/-- C6 counterexample: with an empty requirements list the function does
NOT raise `EmptyRequirementsError`; it returns the `{"error": ...}`
dictionary normally. -/
theorem calculate_profile_match_empty_requirements_cex :
    (calculate_profile_match exM ["python"] [] (7/10) (3/10)).1
      = ProfileOutput.errorDict "Nenhum requisito fornecido" ∧
    (calculate_profile_match exM ["python"] [] (7/10) (3/10)).1
      ≠ ProfileOutput.raised SpecError.emptyRequirements :=
  ⟨rfl, fun h => ProfileOutput.noConfusion h⟩

/-- C6 (amended): with an empty candidate list and non-empty requirements,
`calculate_profile_match` returns the zero-score result with every
requirement missing, issuing no index query; with empty requirements it
returns the error dictionary (again with no query), without raising. -/
theorem calculate_profile_match_boundary :
    (∀ (m : SkillsMatcher) (reqs : List String) (w1 w2 : ℚ), reqs ≠ [] →
      calculate_profile_match m [] reqs w1 w2 =
        (ProfileOutput.zeroResult
          { match_score := 0, match_percentage := 0, required_skills := reqs,
            matched_skills := [], missing_skills := reqs,
            analysis := "Candidato não possui nenhuma skill mapeada" }, [])) ∧
    (∀ (m : SkillsMatcher) (cands : List String) (w1 w2 : ℚ),
      calculate_profile_match m cands [] w1 w2
        = (ProfileOutput.errorDict "Nenhum requisito fornecido", [])) := by
  constructor
  · intro m reqs w1 w2 hreqs
    unfold calculate_profile_match
    rw [if_neg hreqs, if_pos rfl]
  · intro m cands w1 w2
    unfold calculate_profile_match
    rw [if_pos rfl]

/-- Witness for C6 (amended) at a concrete state. -/
theorem calculate_profile_match_boundary_witness :
    ((["Python"] : List String) ≠ []) ∧
      calculate_profile_match exM [] ["Python"] (7/10) (3/10) =
        (ProfileOutput.zeroResult
          { match_score := 0, match_percentage := 0, required_skills := ["Python"],
            matched_skills := [], missing_skills := ["Python"],
            analysis := "Candidato não possui nenhuma skill mapeada" }, []) :=
  ⟨by decide, calculate_profile_match_boundary.1 exM ["Python"] (7/10) (3/10) (by decide)⟩

/-! ## Specification-side description of `calculate_profile_match` (C2) -/

/-- Spec: a requirement matches exactly when it is a case-insensitive
substring of some candidate skill or vice versa. -/
def exactMatchB (candidate_skills : List String) (req : String) : Bool :=
  (candidate_skills.map pyLower).any
    (fun cs => pyIn (pyLower req) cs || pyIn cs (pyLower req))

/-- Spec: a requirement is recorded as matched if it matches exactly, or
the index's single best hit (top_k = 1, threshold 0.70) case-insensitively
equals a candidate skill. -/
def specReqMatched (m : SkillsMatcher) (cands : List String) (req : String) : Bool :=
  exactMatchB cands req ||
    (match find_similar m req 1 (70/100) with
     | (t, _) :: _ => decide (pyLower t ∈ cands.map pyLower)
     | [] => false)

/-- Spec: the per-requirement score — `1.0` for an exact match, the
returned similarity for an accepted semantic match, otherwise `0`. -/
def specReqScore (m : SkillsMatcher) (cands : List String) (req : String) : ℚ :=
  if exactMatchB cands req then 1
  else
    match find_similar m req 1 (70/100) with
    | (t, s) :: _ => if pyLower t ∈ cands.map pyLower then s else 0
    | [] => 0

/-- Spec: percentage bucketing at the fixed cut points ≥90 / ≥75 / ≥60 /
≥40, mapped to the code's level strings. -/
def specLevel (pct : ℤ) : String :=
  if 90 ≤ pct then "EXCELENTE - Candidato altamente qualificado"
  else if 75 ≤ pct then "BOM - Candidato bem qualificado"
  else if 60 ≤ pct then "MODERADO - Candidato com experiência relevante"
  else if 40 ≤ pct then "BAIXO - Candidato precisaria de treinamento"
  else "INSUFICIENTE - Falta experiência significativa"

/-- Spec-side description of the full profile-match result: overall score
is the sum of per-requirement scores over the total requirement count,
matched/missing partition the requirements in input order by
`specReqMatched`, and the level buckets the percentage. -/
def profileMatchSpec (m : SkillsMatcher) (cands reqs : List String) : ProfileMatchResult :=
  let score := (reqs.map (specReqScore m cands)).sum / (reqs.length : ℚ)
  let pct : ℤ := min 100 (pyInt (score * 100))
  { match_score := score
    match_percentage := pct
    level := specLevel pct
    matched_skills := reqs.filter (fun r => specReqMatched m cands r)
    matched_count := (reqs.filter (fun r => specReqMatched m cands r)).length
    missing_skills := reqs.filter (fun r => ! specReqMatched m cands r)
    missing_count := (reqs.filter (fun r => ! specReqMatched m cands r)).length
    required_skills := reqs
    required_count := reqs.length }

theorem specReqScore_eq_zero_of_not_matched (m : SkillsMatcher) (cands : List String)
    (req : String) (h : specReqMatched m cands req = false) :
    specReqScore m cands req = 0 := by
  unfold specReqMatched at h
  rcases Bool.or_eq_false_iff.mp h with ⟨h1, h2⟩
  unfold specReqScore
  rw [if_neg (by rw [h1]; exact Bool.false_ne_true)]
  rcases hf : find_similar m req 1 (70/100) with _ | ⟨⟨t, s⟩, rest⟩
  · rfl
  · rw [hf] at h2
    dsimp only at h2
    dsimp only
    rw [if_neg (of_decide_eq_false h2)]

theorem sum_map_filter_eq (S : String → ℚ) (g : String → Bool)
    (h0 : ∀ r, g r = false → S r = 0) :
    ∀ l : List String, ((l.filter g).map S).sum = (l.map S).sum := by
  intro l
  induction l with
  | nil => rfl
  | cons r rs ih =>
    rw [List.filter_cons]
    by_cases hg : g r
    · rw [if_pos hg, List.map_cons, List.map_cons, List.sum_cons, List.sum_cons, ih]
    · rw [if_neg hg, List.map_cons, List.sum_cons,
        h0 r (Bool.eq_false_iff.mpr hg), ih, zero_add]

theorem profile_foldl_characterization (m : SkillsMatcher) (cands : List String) :
    ∀ (reqs : List String) (acc : List String × List String × List ℚ × List String),
      reqs.foldl (profileStep m (cands.map pyLower)) acc =
        (acc.1 ++ reqs.filter (fun r => specReqMatched m cands r),
         acc.2.1 ++ reqs.filter (fun r => ! specReqMatched m cands r),
         acc.2.2.1 ++ (reqs.filter (fun r => specReqMatched m cands r)).map (specReqScore m cands),
         acc.2.2.2 ++ reqs.filter (fun r => ! exactMatchB cands r)) := by
  intro reqs
  induction reqs with
  | nil => intro acc; simp
  | cons r rs ih =>
    intro acc
    rw [List.foldl_cons, ih]
    by_cases he : exactMatchB cands r
    · have hm : specReqMatched m cands r = true := by
        unfold specReqMatched
        rw [he, Bool.true_or]
      have hs : specReqScore m cands r = 1 := by
        unfold specReqScore
        rw [if_pos he]
      have hstep : profileStep m (cands.map pyLower) acc r =
          (acc.1 ++ [r], acc.2.1, acc.2.2.1 ++ [1], acc.2.2.2) := by
        unfold profileStep
        rw [if_pos (show (cands.map pyLower).any
          (fun cs => pyIn (pyLower r) cs || pyIn cs (pyLower r)) = true from he)]
      rw [hstep]
      simp [List.filter_cons, hm, hs, he]
    · have hstep0 : ∀ res, find_similar m r 1 (70/100) = res →
          profileStep m (cands.map pyLower) acc r =
            (match res with
             | (t, s) :: _ =>
               if pyLower t ∈ cands.map pyLower then
                 (acc.1 ++ [r], acc.2.1, acc.2.2.1 ++ [s], acc.2.2.2 ++ [r])
               else (acc.1, acc.2.1 ++ [r], acc.2.2.1, acc.2.2.2 ++ [r])
             | [] => (acc.1, acc.2.1 ++ [r], acc.2.2.1, acc.2.2.2 ++ [r])) := by
        intro res hres
        unfold profileStep
        rw [if_neg (show ¬ (cands.map pyLower).any
          (fun cs => pyIn (pyLower r) cs || pyIn cs (pyLower r)) = true by
            rw [show ((cands.map pyLower).any
              (fun cs => pyIn (pyLower r) cs || pyIn cs (pyLower r))) = exactMatchB cands r
              from rfl]
            rw [Bool.eq_false_iff.mpr he]
            exact Bool.false_ne_true), hres]
      rcases hf : find_similar m r 1 (70/100) with _ | ⟨⟨t, s⟩, rest⟩
      · have hm : specReqMatched m cands r = false := by
          simp [specReqMatched, hf, Bool.eq_false_iff.mpr he]
        rw [hstep0 [] hf]
        simp [List.filter_cons, hm, he]
      · by_cases ht : pyLower t ∈ cands.map pyLower
        · have hm : specReqMatched m cands r = true := by
            unfold specReqMatched
            rw [Bool.eq_false_iff.mpr he, hf, Bool.false_or]
            exact decide_eq_true ht
          have hs : specReqScore m cands r = s := by
            unfold specReqScore
            rw [if_neg (by rw [Bool.eq_false_iff.mpr he]; exact Bool.false_ne_true), hf]
            dsimp only
            rw [if_pos ht]
          rw [hstep0 _ hf]
          dsimp only
          rw [if_pos ht]
          simp [List.filter_cons, hm, hs, he]
        · have hm : specReqMatched m cands r = false := by
            unfold specReqMatched
            rw [Bool.eq_false_iff.mpr he, hf, Bool.false_or]
            exact decide_eq_false ht
          rw [hstep0 _ hf]
          dsimp only
          rw [if_neg ht]
          simp [List.filter_cons, hm, he]

/-- C2: on the main path (non-empty requirements and candidates),
`calculate_profile_match` returns exactly the spec-side result: each
requirement scores 1.0 on a bidirectional case-insensitive substring
match, else the single `find_similar` hit's score (threshold 0.70) if its
text case-insensitively equals a candidate skill, else 0; the overall
score is the sum over the full requirement count; the percentage buckets
at ≥90/≥75/≥60/≥40. -/
theorem calculate_profile_match_characterization
    (m : SkillsMatcher) (cands reqs : List String) (w1 w2 : ℚ)
    (hreq : reqs ≠ []) (hcand : cands ≠ []) :
    (calculate_profile_match m cands reqs w1 w2).1
      = ProfileOutput.full (profileMatchSpec m cands reqs) := by
  unfold calculate_profile_match
  rw [if_neg hreq, if_neg hcand]
  dsimp only
  rw [profile_foldl_characterization m cands reqs ([], [], [], [])]
  dsimp only
  simp only [List.nil_append]
  have h1 : ((reqs.filter (fun r => specReqMatched m cands r)).map (specReqScore m cands)).sum
      = (reqs.map (specReqScore m cands)).sum :=
    sum_map_filter_eq _ _ (specReqScore_eq_zero_of_not_matched m cands) reqs
  have havg : (if ((reqs.filter (fun r => specReqMatched m cands r)).map
        (specReqScore m cands)) = [] then (0:ℚ)
      else ((reqs.filter (fun r => specReqMatched m cands r)).map
        (specReqScore m cands)).sum / (reqs.length : ℚ))
      = (reqs.map (specReqScore m cands)).sum / (reqs.length : ℚ) := by
    split
    · rename_i hnil
      rw [← h1, hnil]
      simp
    · rw [h1]
  rw [havg]
  rfl

/-- Witness for C2 at a concrete state: one exact match, one requirement
whose semantic hit does not equal a candidate skill. -/
theorem calculate_profile_match_characterization_witness :
    ((["python", "AWS"] : List String) ≠ []) ∧ ((["Python"] : List String) ≠ []) ∧
      (calculate_profile_match exM ["Python"] ["python", "AWS"] (7/10) (3/10)).1
        = ProfileOutput.full (profileMatchSpec exM ["Python"] ["python", "AWS"]) :=
  ⟨by decide, by decide,
    calculate_profile_match_characterization exM ["Python"] ["python", "AWS"] (7/10) (3/10)
      (by decide) (by decide)⟩

/-! ## The occupation-inference service
(`src/api/app/services/occupation_inference_service.py`)

`extract_professional_context` is a regex pipeline over free text; it is
carried as a black-box `extractKeywords` oracle (its output feeds the part
of `infer_occupations` the claims are about, and no claim depends on the
regexes themselves). -/

/-- One CBO occupation record (`{"codigo": ..., "titulo": ...}`). -/
structure Occupation where
  codigo : String
  titulo : String
deriving DecidableEq

/-- One entry of the list returned by `infer_occupations`. -/
structure OccResult where
  titulo : String
  codigo : Option String
  score : ℚ
  confidence : String
deriving DecidableEq

/-- `occupation_scores[title].append(score)` on an insertion-ordered
association list (the model of the Python dict accumulation). -/
def addScore (title : String) (score : ℚ) : List (String × List ℚ) → List (String × List ℚ)
  | [] => [(title, [score])]
  | (t, ss) :: rest =>
    if t = title then (t, ss ++ [score]) :: rest
    else (t, ss) :: addScore title score rest

/-- `OccupationInferenceService.infer_occupations`: per extracted keyword
(of stripped length ≥ 3) query `find_similar(keyword, top_k=10,
threshold)`, accumulate every `(title, score)` hit per title, average each
title's scores, round to 4 decimals, attach the first matching CBO code,
tier the confidence on the unrounded average, sort by (rounded) score
descending and truncate to `top_k`. -/
def infer_occupations (m : SkillsMatcher) (occupations : List Occupation)
    (extractKeywords : String → List String) (resume_text : String)
    (top_k : Nat) (threshold : ℚ) : List OccResult :=
  let keywords := extractKeywords resume_text
  if keywords = [] then []
  else
    let occupation_scores := keywords.foldl
      (fun acc keyword =>
        if (pyStrip keyword).length < 3 then acc
        else (find_similar m keyword 10 threshold).foldl
          (fun acc2 h => addScore h.1 h.2 acc2) acc) []
    let final_occupations := occupation_scores.map (fun p =>
      let avg_score : ℚ := if p.2 = [] then 0 else p.2.sum / (p.2.length : ℚ)
      { titulo := p.1
        codigo := (occupations.find? (fun occ => occ.titulo = p.1)).map (fun occ => occ.codigo)
        score := pyRound4 avg_score
        confidence := if 8/10 < avg_score then "high"
                      else if 7/10 < avg_score then "medium" else "low" })
    (sortKeyDesc (fun x => x.score) final_occupations).take top_k

/-! ### Spec-side description of `infer_occupations` (C8) -/

/-- All `(title, score)` hits across the processed keywords, in query
order. -/
def occHits (m : SkillsMatcher) (keywords : List String) (threshold : ℚ) :
    List (String × ℚ) :=
  ((keywords.filter (fun k => ¬ (pyStrip k).length < 3)).map
    (fun k => find_similar m k 10 threshold)).flatten

/-- The scores a given title accumulated, in hit order. -/
def scoresFor (hits : List (String × ℚ)) (t : String) : List ℚ :=
  (hits.filter (fun h => h.1 = t)).map (fun h => h.2)

/-- Spec-side description of `infer_occupations` (amended for rounding):
each surfaced title gets the arithmetic mean of its accumulated scores,
rounded to 4 decimal places (ties to even); confidence tiers on the
unrounded mean (`> 0.80` high, `> 0.70` medium, else low); output sorted
by rounded score descending, truncated to `top_k`. -/
def inferOccupationsSpec (m : SkillsMatcher) (occupations : List Occupation)
    (extractKeywords : String → List String) (resume_text : String)
    (top_k : Nat) (threshold : ℚ) : List OccResult :=
  let keywords := extractKeywords resume_text
  if keywords = [] then []
  else
    let hits := occHits m keywords threshold
    let entries := (dedupFirst (hits.map (fun h => h.1))).map (fun t =>
      let avg : ℚ := (scoresFor hits t).sum / ((scoresFor hits t).length : ℚ)
      { titulo := t
        codigo := (occupations.find? (fun occ => occ.titulo = t)).map (fun occ => occ.codigo)
        score := pyRound4 avg
        confidence := if 8/10 < avg then "high"
                      else if 7/10 < avg then "medium" else "low" : OccResult })
    (sortKeyDesc (fun x => x.score) entries).take top_k

/-! ### The dict accumulation in `infer_occupations` is first-seen
deduplication with per-title score collection -/

theorem addScore_of_not_mem (t : String) (s : ℚ) :
    ∀ A : List (String × List ℚ), t ∉ A.map Prod.fst →
      addScore t s A = A ++ [(t, [s])] := by
  intro A
  induction A with
  | nil => intro _; rfl
  | cons p ps ih =>
    intro h
    obtain ⟨pt, pss⟩ := p
    rw [List.map_cons, List.mem_cons] at h
    push_neg at h
    unfold addScore
    rw [if_neg (fun he => h.1 he.symm), ih h.2, List.cons_append]

theorem addScore_of_mem (t : String) (s : ℚ) :
    ∀ A : List (String × List ℚ), (A.map Prod.fst).Nodup → t ∈ A.map Prod.fst →
      addScore t s A = A.map (fun p => (p.1, if p.1 = t then p.2 ++ [s] else p.2)) := by
  intro A
  induction A with
  | nil => intro _ hm; simp at hm
  | cons p ps ih =>
    intro hnd hm
    obtain ⟨pt, pss⟩ := p
    rw [List.map_cons, List.nodup_cons] at hnd
    rw [List.map_cons, List.mem_cons] at hm
    unfold addScore
    by_cases hpt : pt = t
    · rw [if_pos hpt, List.map_cons]
      dsimp only
      rw [if_pos hpt]
      congr 1
      have hfix : ∀ q ∈ ps, (fun p => (p.1, if p.1 = t then p.2 ++ [s] else p.2)) q = q := by
        intro q hq
        have hq1 : Prod.fst q ≠ t := by
          intro he
          apply hnd.1
          rw [show ((pt, pss).1 : String) = pt from rfl, hpt, ← he]
          exact List.mem_map_of_mem Prod.fst hq
        dsimp only
        rw [if_neg hq1]
      rw [List.map_congr_left hfix, List.map_id']
    · rw [if_neg hpt, List.map_cons]
      dsimp only
      rw [if_neg hpt, ih hnd.2 (hm.resolve_left (fun he => hpt he.symm))]

theorem keys_addScore (t : String) (s : ℚ) (A : List (String × List ℚ))
    (hnd : (A.map Prod.fst).Nodup) :
    (addScore t s A).map Prod.fst
      = if t ∈ A.map Prod.fst then A.map Prod.fst else A.map Prod.fst ++ [t] := by
  by_cases hm : t ∈ A.map Prod.fst
  · rw [if_pos hm, addScore_of_mem t s A hnd hm, List.map_map]
    rfl
  · rw [if_neg hm, addScore_of_not_mem t s A hm, List.map_append]
    rfl

theorem dedupFirstAux_congr_seen :
    ∀ (l seen₁ seen₂ : List String), (∀ x, x ∈ seen₁ ↔ x ∈ seen₂) →
      dedupFirstAux seen₁ l = dedupFirstAux seen₂ l := by
  intro l
  induction l with
  | nil => intro _ _ _; rfl
  | cons x xs ih =>
    intro seen₁ seen₂ hiff
    unfold dedupFirstAux
    by_cases hx : x ∈ seen₁
    · rw [if_pos hx, if_pos ((hiff x).mp hx), ih seen₁ seen₂ hiff]
    · rw [if_neg hx, if_neg (fun hc => hx ((hiff x).mpr hc))]
      rw [ih (x :: seen₁) (x :: seen₂) (by
        intro y
        simp only [List.mem_cons]
        rw [hiff y])]

theorem scoresFor_cons (t₀ : String) (s₀ : ℚ) (rest : List (String × ℚ)) (t : String) :
    scoresFor ((t₀, s₀) :: rest) t
      = if t₀ = t then s₀ :: scoresFor rest t else scoresFor rest t := by
  unfold scoresFor
  rw [List.filter_cons]
  by_cases h : t₀ = t
  · rw [if_pos (decide_eq_true h), if_pos h, List.map_cons]
  · rw [if_neg (by simpa using h), if_neg h]

theorem dedupFirstAux_nil (seen : List String) : dedupFirstAux seen [] = [] := rfl

theorem dedupFirstAux_cons (seen : List String) (x : String) (xs : List String) :
    dedupFirstAux seen (x :: xs)
      = if x ∈ seen then dedupFirstAux seen xs else x :: dedupFirstAux (x :: seen) xs := rfl

theorem foldl_addScore_characterization :
    ∀ (hits : List (String × ℚ)) (A : List (String × List ℚ)),
      (A.map Prod.fst).Nodup →
      hits.foldl (fun acc h => addScore h.1 h.2 acc) A =
        A.map (fun p => (p.1, p.2 ++ scoresFor hits p.1))
          ++ (dedupFirstAux (A.map Prod.fst) (hits.map Prod.fst)).map
               (fun t => (t, scoresFor hits t)) := by
  intro hits
  induction hits with
  | nil =>
    intro A _
    have h1 : ∀ p ∈ A, (fun p => (p.1, p.2 ++ scoresFor [] p.1)) p = p := by
      intro p _
      show (p.1, p.2 ++ []) = p
      rw [List.append_nil]
    rw [List.foldl_nil, List.map_congr_left h1, List.map_id', List.map_nil,
      dedupFirstAux_nil, List.map_nil, List.append_nil]
  | cons h₀ rest ih =>
    intro A hnd
    obtain ⟨t₀, s₀⟩ := h₀
    rw [List.foldl_cons,
      show List.map Prod.fst ((t₀, s₀) :: rest) = t₀ :: rest.map Prod.fst from rfl,
      dedupFirstAux_cons]
    by_cases hm : t₀ ∈ A.map Prod.fst
    · have hA' : (addScore t₀ s₀ A).map Prod.fst = A.map Prod.fst := by
        rw [keys_addScore t₀ s₀ A hnd, if_pos hm]
      rw [ih (addScore t₀ s₀ A) (hA' ▸ hnd), hA']
      rw [addScore_of_mem t₀ s₀ A hnd hm, List.map_map, if_pos hm]
      congr 1
      · apply List.map_congr_left
        intro p hp
        show (p.1, (if p.1 = t₀ then p.2 ++ [s₀] else p.2) ++ scoresFor rest p.1)
          = (p.1, p.2 ++ scoresFor ((t₀, s₀) :: rest) p.1)
        rw [scoresFor_cons]
        by_cases hpt : p.1 = t₀
        · rw [if_pos hpt, if_pos hpt.symm, List.append_assoc, List.singleton_append]
        · rw [if_neg hpt, if_neg (fun he => hpt he.symm)]
      · apply List.map_congr_left
        intro t ht
        have htne : t ≠ t₀ := fun he =>
          (mem_dedupFirstAux.mp ht).2 (he ▸ hm)
        rw [scoresFor_cons, if_neg (fun he => htne he.symm)]
    · have hA' : (addScore t₀ s₀ A).map Prod.fst = A.map Prod.fst ++ [t₀] := by
        rw [keys_addScore t₀ s₀ A hnd, if_neg hm]
      have hnd' : ((addScore t₀ s₀ A).map Prod.fst).Nodup := by
        rw [hA']
        exact List.Nodup.append hnd (List.nodup_singleton t₀)
          (List.disjoint_singleton.mpr hm)
      rw [ih (addScore t₀ s₀ A) hnd', hA']
      rw [addScore_of_not_mem t₀ s₀ A hm, if_neg hm]
      rw [dedupFirstAux_congr_seen (rest.map Prod.fst) (A.map Prod.fst ++ [t₀])
        (t₀ :: A.map Prod.fst) (by intro y; simp [or_comm])]
      rw [List.map_append, List.map_cons]
      simp only [List.map_cons, List.map_nil]
      rw [List.append_assoc, List.singleton_append]
      congr 1
      · apply List.map_congr_left
        intro p hp
        show (p.1, p.2 ++ scoresFor rest p.1) = (p.1, p.2 ++ scoresFor ((t₀, s₀) :: rest) p.1)
        have hpt : p.1 ≠ t₀ := fun he => hm (he ▸ List.mem_map_of_mem Prod.fst hp)
        rw [scoresFor_cons, if_neg (fun he => hpt he.symm)]
      · congr 1
        · show ((t₀, [s₀] ++ scoresFor rest t₀) : String × List ℚ)
            = (t₀, scoresFor ((t₀, s₀) :: rest) t₀)
          rw [scoresFor_cons, if_pos rfl, List.singleton_append]
        · apply List.map_congr_left
          intro t ht
          have htne : t ≠ t₀ := fun he =>
            (mem_dedupFirstAux.mp ht).2 (he ▸ List.mem_cons_self t₀ _)
          rw [scoresFor_cons, if_neg (fun he => htne he.symm)]

theorem foldl_keywords_eq_foldl_hits (m : SkillsMatcher) (threshold : ℚ) :
    ∀ (keywords : List String) (A : List (String × List ℚ)),
      keywords.foldl
        (fun acc keyword =>
          if (pyStrip keyword).length < 3 then acc
          else (find_similar m keyword 10 threshold).foldl
            (fun acc2 h => addScore h.1 h.2 acc2) acc) A
      = (occHits m keywords threshold).foldl (fun acc h => addScore h.1 h.2 acc) A := by
  intro keywords
  induction keywords with
  | nil => intro A; rfl
  | cons k ks ih =>
    intro A
    rw [List.foldl_cons]
    by_cases hk : (pyStrip k).length < 3
    · rw [if_pos hk, ih A]
      have hocc : occHits m (k :: ks) threshold = occHits m ks threshold := by
        unfold occHits
        rw [List.filter_cons, if_neg (by simp [hk])]
      rw [hocc]
    · rw [if_neg hk, ih]
      have hocc : occHits m (k :: ks) threshold
          = find_similar m k 10 threshold ++ occHits m ks threshold := by
        unfold occHits
        rw [List.filter_cons, if_pos (by simp [hk]), List.map_cons, List.flatten_cons]
      rw [hocc, List.foldl_append]

/-- C8 (amended): `infer_occupations` returns, per surfaced occupation
title, the arithmetic mean of all similarity scores it accumulated across
the keywords' `find_similar` queries — rounded to 4 decimal places (ties
to even) — with confidence tiered on the unrounded mean (`> 0.80` high,
`> 0.70` medium, else low), sorted by the rounded score descending and
truncated to `top_k`. (The unamended claim, that the final score *equals*
the mean, fails because of the rounding; see the counterexample.) -/
theorem infer_occupations_eq_spec (m : SkillsMatcher) (occupations : List Occupation)
    (extractKeywords : String → List String) (resume_text : String)
    (top_k : Nat) (threshold : ℚ) :
    infer_occupations m occupations extractKeywords resume_text top_k threshold
      = inferOccupationsSpec m occupations extractKeywords resume_text top_k threshold := by
  unfold infer_occupations inferOccupationsSpec
  by_cases hkw : extractKeywords resume_text = []
  · rw [if_pos hkw, if_pos hkw]
  · rw [if_neg hkw, if_neg hkw]
    dsimp only
    rw [foldl_keywords_eq_foldl_hits]
    rw [foldl_addScore_characterization
      (occHits m (extractKeywords resume_text) threshold) [] (by simp)]
    simp only [List.map_nil, List.nil_append]
    rw [List.map_map]
    congr 1
    congr 1
    apply List.map_congr_left
    intro t ht
    show ({ titulo := t
            codigo := (occupations.find? (fun occ => occ.titulo = t)).map (fun occ => occ.codigo)
            score := pyRound4 (if scoresFor (occHits m (extractKeywords resume_text) threshold) t = []
              then 0
              else (scoresFor (occHits m (extractKeywords resume_text) threshold) t).sum
                / ((scoresFor (occHits m (extractKeywords resume_text) threshold) t).length : ℚ))
            confidence := if 8/10 < (if scoresFor (occHits m (extractKeywords resume_text) threshold) t = []
              then (0:ℚ)
              else (scoresFor (occHits m (extractKeywords resume_text) threshold) t).sum
                / ((scoresFor (occHits m (extractKeywords resume_text) threshold) t).length : ℚ))
              then "high"
              else if 7/10 < (if scoresFor (occHits m (extractKeywords resume_text) threshold) t = []
                then (0:ℚ)
                else (scoresFor (occHits m (extractKeywords resume_text) threshold) t).sum
                  / ((scoresFor (occHits m (extractKeywords resume_text) threshold) t).length : ℚ))
                then "medium" else "low" } : OccResult)
        = { titulo := t
            codigo := (occupations.find? (fun occ => occ.titulo = t)).map (fun occ => occ.codigo)
            score := pyRound4 ((scoresFor (occHits m (extractKeywords resume_text) threshold) t).sum
              / ((scoresFor (occHits m (extractKeywords resume_text) threshold) t).length : ℚ))
            confidence := if 8/10 < (scoresFor (occHits m (extractKeywords resume_text) threshold) t).sum
                / ((scoresFor (occHits m (extractKeywords resume_text) threshold) t).length : ℚ)
              then "high"
              else if 7/10 < (scoresFor (occHits m (extractKeywords resume_text) threshold) t).sum
                  / ((scoresFor (occHits m (extractKeywords resume_text) threshold) t).length : ℚ)
                then "medium" else "low" }
    by_cases hnil : scoresFor (occHits m (extractKeywords resume_text) threshold) t = []
    · rw [hnil]
      simp
    · rw [if_neg hnil]

/-- Concrete data for the C8 counterexample: one occupation, one keyword,
an oracle whose cosine score is `7/9` (a value with no finite 4-decimal
representation). -/
def exOccs : List Occupation := [{ codigo := "1", titulo := "x" }]

/-- Keyword-extraction oracle returning one keyword. -/
def exKw : String → List String := fun _ => ["abc"]

/-- Matcher whose single corpus entry scores `7/9` against any query. -/
def exM8 : SkillsMatcher :=
  { encode := fun _ => []
    cos_sim := fun _ _ => 7/9
    corpus := ["x"]
    corpus_embeddings := some [[1]] }

/-- C8 counterexample: the title `"x"` accumulates exactly one score,
`7/9`, so its arithmetic mean is `7/9`; but the returned final score is
`round(7/9, 4) = 0.7778 ≠ 7/9`. The final score therefore does not equal
the arithmetic mean of the accumulated scores. -/
theorem infer_occupations_rounded_score_cex :
    find_similar exM8 "abc" 10 (1/2) = [("x", 7/9)] ∧
    infer_occupations exM8 exOccs exKw "cv" 5 (1/2)
      = [{ titulo := "x", codigo := some "1", score := 3889/5000, confidence := "medium" }] ∧
    ((3889 : ℚ)/5000 ≠ 7/9) := by
  have h1 : pyStrip "abc" = "abc" := rfl
  have h2 : find_similar exM8 "abc" 10 (1/2) = [("x", 7/9)] := by
    norm_num [find_similar, exM8, sortKeyDesc, insKeyDesc]
  have h3 : pyRound4 (7/9) = 3889/5000 := by
    unfold pyRound4 roundHalfEven
    have hf : ⌊(7:ℚ)/9 * 10000⌋ = 7777 := by
      norm_num [Int.floor_eq_iff]
    rw [hf]
    norm_num
  refine ⟨h2, ?_, by norm_num⟩
  norm_num [infer_occupations, exKw, exOccs, h1, h2, addScore, sortKeyDesc, insKeyDesc, h3]

end IaGs2
